import Mathlib

/-!
# Verification of the AnnotateVite agreement core

A shallow embedding of the agreement computation of the AnnotateVite
annotation tool, together with proofs of the specified properties.

The embedded code comes from two React components:

* `KappaCalculator.tsx` — Cohen's kappa over two fixed label dimensions:
  pair extraction (`calculateKappa`) and the per-dimension computation
  (`calculateKappaForCategory`).
* `AdjudicatorInterface.tsx` — disagreement detection (`hasDisagreement`)
  and the "navigate to first unadjudicated disagreement" effect.

JavaScript `number` arithmetic on the agreement statistics is modelled
over `ℚ`: all quantities involved are counts divided by the pair count.
JavaScript array semantics that matter here are modelled explicitly:

* `labels.indexOf(x)` returns `-1` when `x` is absent (`jsFind`);
* `matrix[-1][c]++` throws a `TypeError` (`matrix[-1]` is `undefined`),
  modelled by the computation returning `none`;
* `matrix[r][-1]++` (with `0 ≤ r < k`) creates a *non-index property*
  `"-1"` on the row array, which is invisible to every later read the
  program performs (`reduce`, `map`, rendering all iterate index
  properties only), so it is modelled as leaving the matrix unchanged.
-/

namespace AnnotateVite

/-- `annotator_role` values of the `annotations` table. -/
inductive Role where
  | annotator1 : Role
  | annotator2 : Role
deriving DecidableEq, Repr

/-- `sentiment` values. -/
inductive Sentiment where
  | positive : Sentiment
  | negative : Sentiment
  | neutral : Sentiment
deriving DecidableEq, Repr

/-- `discourse_polarization` values. -/
inductive Discourse where
  | partisan : Discourse
  | objective : Discourse
  | non_polarized : Discourse
deriving DecidableEq, Repr

/-- The string form of a sentiment label, as stored in the database rows. -/
def Sentiment.toLabel : Sentiment → String
  | .positive => "positive"
  | .negative => "negative"
  | .neutral => "neutral"

/-- The string form of a discourse label, as stored in the database rows. -/
def Discourse.toLabel : Discourse → String
  | .partisan => "partisan"
  | .objective => "objective"
  | .non_polarized => "non_polarized"

/-- The `Annotation` record (interface `Annotation` of the source; the
`created_at` timestamp is carried as an opaque string). -/
structure Annotation where
  id : Nat
  comment_id : Nat
  annotator_role : Role
  sentiment : Sentiment
  discourse_polarization : Discourse
  created_at : String
deriving DecidableEq, Repr

/-- The `FinalAnnotation` record (interface `FinalAnnotation`). -/
structure FinalAnnotation where
  id : Nat
  comment_id : Nat
  final_sentiment : Sentiment
  final_discourse_polarization : Discourse
  created_at : String
deriving DecidableEq, Repr

/-- The `Comment` record (interface `Comment`); only the fields the
adjudicator navigation logic reads are kept. -/
structure Comment where
  id : Nat
  text : String
deriving DecidableEq, Repr

/-- The fixed sentiment label order: `['positive', 'negative', 'neutral']`. -/
def sentimentLabels : List String := ["positive", "negative", "neutral"]

/-- The fixed discourse label order:
`['partisan', 'objective', 'non_polarized']`. -/
def discourseLabels : List String := ["partisan", "objective", "non_polarized"]

/-- The result record of `calculateKappaForCategory`. The matrix holds
integer counts. -/
structure CatResult where
  observedAgreement : ℚ
  expectedAgreement : ℚ
  kappa : ℚ
  matrix : List (List Nat)
deriving DecidableEq, Repr

/-- JavaScript `labels.indexOf(v)` applied to a possibly-`undefined`
array read `v` (`none` models `undefined`): the index of the first
occurrence, `-1` when absent. -/
def jsFind (labels : List String) (v : Option String) : Int :=
  match v with
  | none => -1
  | some s =>
    match labels.findIdx? (fun x => x == s) with
    | some j => (j : Int)
    | none => -1

/-- `matrix[r][c]++` for in-range indices `r`, `c`. -/
def matInc (m : List (List Nat)) (r c : Nat) : List (List Nat) :=
  m.set r ((m.getD r []).set c ((m.getD r []).getD c 0 + 1))

/-- One iteration of the `for (let i = 0; i < n; i++)` loop of
`calculateKappaForCategory`. The state is `none` once the loop has thrown
(reading `matrix[-1]` yields `undefined` and `undefined[idx2]++` throws a
`TypeError`); a write to column index `-1` creates a non-index property
invisible to all subsequent reads, so the matrix is left unchanged. -/
def kappaStep (labels annotator1 annotator2 : List String)
    (st : Option (List (List Nat) × Nat)) (i : Nat) :
    Option (List (List Nat) × Nat) :=
  match st with
  | none => none
  | some (matrix, observedAgreements) =>
    let idx1 := jsFind labels (annotator1.get? i)
    let idx2 := jsFind labels (annotator2.get? i)
    if idx1 < 0 then none
    else
      some (if 0 ≤ idx2 then matInc matrix idx1.toNat idx2.toNat else matrix,
            if idx1 = idx2 then observedAgreements + 1 else observedAgreements)

/-- The whole counting loop of `calculateKappaForCategory`, starting from
the `k × k` zero matrix and a zero agreement counter. -/
def kappaLoop (labels annotator1 annotator2 : List String) (n : Nat) :
    Option (List (List Nat) × Nat) :=
  (List.range n).foldl (kappaStep labels annotator1 annotator2)
    (some (List.replicate labels.length (List.replicate labels.length 0), 0))

/-- `calculateKappaForCategory` of `KappaCalculator.tsx`.  `none` models
the loop throwing a `TypeError` (an annotator1 label outside `labels`). -/
def calculateKappaForCategory (annotator1 annotator2 labels : List String) :
    Option CatResult :=
  let n := annotator1.length
  match kappaLoop labels annotator1 annotator2 n with
  | none => none
  | some (matrix, observedAgreements) =>
    let observedAgreement : ℚ := (observedAgreements : ℚ) / (n : ℚ)
    let marginal1 : List ℚ :=
      (List.range labels.length).map
        (fun idx => ((matrix.getD idx []).sum : ℚ) / (n : ℚ))
    let marginal2 : List ℚ :=
      (List.range labels.length).map
        (fun idx => (((matrix.map (fun row => row.getD idx 0)).sum : Nat) : ℚ) / (n : ℚ))
    let expectedAgreement : ℚ :=
      ((List.range labels.length).map
        (fun idx => marginal1.getD idx 0 * marginal2.getD idx 0)).sum
    let kappa : ℚ :=
      if expectedAgreement = 1 then 1
      else (observedAgreement - expectedAgreement) / (1 - expectedAgreement)
    some ⟨observedAgreement, expectedAgreement, kappa, matrix⟩

/-- The label index the loop computes for position `i` of sequence `a`. -/
def idxAt (labels a : List String) (i : Nat) : Int :=
  jsFind labels (a.get? i)

/-- The number of loop iterations `i < n` that hit cell `(r, c)`. -/
def cellCount (labels a1 a2 : List String) (n r c : Nat) : Nat :=
  ((Finset.range n).filter
    (fun i => idxAt labels a1 i = (r : Int) ∧ idxAt labels a2 i = (c : Int))).card

/-- The number of loop iterations `i < n` that increment
`observedAgreements`. -/
def obsCount (labels a1 a2 : List String) (n : Nat) : Nat :=
  ((Finset.range n).filter
    (fun i => idxAt labels a1 i = idxAt labels a2 i)).card

/-- The number of positions `i < n` of sequence `a` carrying the label of
index `r`. -/
def idxCount (labels a : List String) (n r : Nat) : Nat :=
  ((Finset.range n).filter (fun i => idxAt labels a i = (r : Int))).card

/-- The record entry `commentAnnotations[cid][role]` after the grouping
`forEach` of `calculateKappa`: each assignment overwrites the previous
one, so the entry is the last matching annotation in fetch order. -/
def lastWith (anns : List Annotation) (cid : Nat) (r : Role) : Option Annotation :=
  (anns.filter (fun a => a.comment_id == cid && a.annotator_role == r)).getLast?

/-- The keys of the record `commentAnnotations`: JavaScript enumerates
integer-like keys of an object in ascending numeric order, regardless of
insertion order. -/
def commentIds (anns : List Annotation) : List Nat :=
  ((anns.map (fun a => a.comment_id)).dedup).mergeSort (fun x y => x ≤ y)

/-- `Object.values(commentAnnotations).filter(pair => pair.annotator1 &&
pair.annotator2)` of `calculateKappa`, with each kept record turned into
the pair of its two annotations. -/
def completePairs (anns : List Annotation) : List ( Annotation × Annotation) :=
  (commentIds anns).filterMap (fun cid =>
    match lastWith anns cid Role.annotator1, lastWith anns cid Role.annotator2 with
    | some a1, some a2 => some (a1, a2)
    | _, _ => none)

/-- The result record assembled by `calculateKappa`. -/
structure KappaResult where
  sentiment : CatResult
  discoursePolarization : CatResult
deriving DecidableEq, Repr

/-- `calculateKappa` of `KappaCalculator.tsx`: `none` models the
early return after `alert('No complete annotation pairs found…')`
(and, inherited from `calculateKappaForCategory`, a thrown
`TypeError`, which cannot occur on well-typed annotation rows). -/
def calculateKappa (annotations : List Annotation) : Option KappaResult :=
  let pairs := completePairs annotations
  if pairs.length = 0 then none
  else
    match calculateKappaForCategory
        (pairs.map (fun pair => pair.1.sentiment.toLabel))
        (pairs.map (fun pair => pair.2.sentiment.toLabel))
        sentimentLabels,
      calculateKappaForCategory
        (pairs.map (fun pair => pair.1.discourse_polarization.toLabel))
        (pairs.map (fun pair => pair.2.discourse_polarization.toLabel))
        discourseLabels with
    | some sentimentKappa, some discourseKappa =>
      some ⟨sentimentKappa, discourseKappa⟩
    | _, _ => none

/-- The `kappaResults` state after pressing "Calculate": `calculateKappa`
either leaves the previous state untouched (zero-pair early return) or
replaces it with the fresh result. -/
def kappaResultsAfterCalculate (prev : Option KappaResult)
    (annotations : List Annotation) : Option KappaResult :=
  match calculateKappa annotations with
  | none => prev
  | some r => some r

/-- `hasDisagreement` of `AdjudicatorInterface.tsx`; the `Option.map`
reads model the `annotations[i]?.field` optional chaining. -/
def hasDisagreement (annotations : List Annotation) : Bool :=
  if annotations.length < 2 then false
  else
    decide ((annotations.get? 0).map (fun a => a.sentiment) ≠
        (annotations.get? 1).map (fun a => a.sentiment)) ||
    decide ((annotations.get? 0).map (fun a => a.discourse_polarization) ≠
        (annotations.get? 1).map (fun a => a.discourse_polarization))

/-- Lookup in the `annotations` record of the adjudicator (built keyed by
`comment_id`), including the `|| []` default. -/
def lookupAnnotations (annMap : List (Nat × List Annotation)) (cid : Nat) :
    List Annotation :=
  match annMap.find? (fun p => p.1 == cid) with
  | some p => p.2
  | none => []

/-- Lookup in the `finalAnnotations` record, used as a truthiness test. -/
def hasFinalAnnotation (finMap : List (Nat × FinalAnnotation)) (cid : Nat) : Bool :=
  (finMap.find? (fun p => p.1 == cid)).isSome

/-- The predicate of the first `findIndex` of the navigation effect:
a loaded comment with exactly two annotations, no final annotation and a
disagreement. Unloaded slots (`!comment`) are rejected. -/
def isDisagreementTarget (annMap : List (Nat × List Annotation))
    (finMap : List (Nat × FinalAnnotation)) (c? : Option Comment) : Bool :=
  match c? with
  | none => false
  | some c =>
    let commentAnnotations := lookupAnnotations annMap c.id
    commentAnnotations.length == 2 && !( hasFinalAnnotation finMap c.id) &&
      hasDisagreement commentAnnotations

/-- The predicate of the fallback `findIndex`: a loaded comment with
exactly two annotations and no final annotation. -/
def isUnfinishedTarget (annMap : List (Nat × List Annotation))
    (finMap : List (Nat × FinalAnnotation)) (c? : Option Comment) : Bool :=
  match c? with
  | none => false
  | some c =>
    let commentAnnotations := lookupAnnotations annMap c.id
    commentAnnotations.length == 2 && !( hasFinalAnnotation finMap c.id)

/-- The "navigate to first unadjudicated comment with disagreement"
effect of `AdjudicatorInterface.tsx`: the value of `currentCommentIndex`
after the effect runs. -/
def navigateToFirstDisagreement (totalComments : Nat)
    (comments : List (Option Comment)) (annMap : List (Nat × List Annotation))
    (finMap : List (Nat × FinalAnnotation)) (currentCommentIndex : Nat) : Nat :=
  if 0 < totalComments ∧ annMap ≠ [] then
    match comments.findIdx? (isDisagreementTarget annMap finMap) with
    | some i => i
    | none =>
      match comments.findIdx? (isUnfinishedTarget annMap finMap) with
      | some i => i
      | none => currentCommentIndex
  else currentCommentIndex

section Helpers

variable {α β : Type*}

theorem getD_set_self {l : List α} {i : Nat} {a d : α} (h : i < l.length) :
    (l.set i a).getD i d = a := by
  simp [List.getD_eq_getElem?_getD, List.getElem?_set_self h]

theorem getD_set_ne {l : List α} {i j : Nat} {a d : α} (h : i ≠ j) :
    (l.set i a).getD j d = l.getD j d := by
  simp [List.getD_eq_getElem?_getD, List.getElem?_set_ne h]

theorem getD_replicate {n i : Nat} {a d : α} (h : i < n) :
    (List.replicate n a).getD i d = a := by
  simp [List.getD_eq_getElem?_getD, List.getElem?_replicate, h]

theorem getD_map_range {n i : Nat} {f : Nat → β} {d : β} (h : i < n) :
    ((List.range n).map f).getD i d = f i := by
  simp [List.getD_eq_getElem?_getD, List.getElem?_map, List.getElem?_range, h]

theorem sum_map_range [AddCommMonoid β] (f : Nat → β) (n : Nat) :
    ((List.range n).map f).sum = ∑ i ∈ Finset.range n, f i := by
  induction n with
  | zero => simp
  | succ n ih =>
    rw [List.range_succ, List.map_append, List.sum_append, Finset.sum_range_succ, ih]
    simp

theorem list_sum_eq_sum_getD (l : List Nat) :
    l.sum = ∑ c ∈ Finset.range l.length, l.getD c 0 := by
  induction l with
  | nil => simp
  | cons a t ih =>
    rw [List.sum_cons, List.length_cons, Finset.sum_range_succ', ih]
    simp [Nat.add_comm]

theorem list_map_sum_eq_sum_getD (l : List α) (f : α → Nat) (d : α) :
    (l.map f).sum = ∑ i ∈ Finset.range l.length, f (l.getD i d) := by
  induction l with
  | nil => simp
  | cons a t ih =>
    rw [List.map_cons, List.sum_cons, List.length_cons, Finset.sum_range_succ', ih]
    simp [Nat.add_comm]

theorem filter_range_succ_card (p : Nat → Prop) [DecidablePred p] (n : Nat) :
    ((Finset.range (n + 1)).filter p).card =
      ((Finset.range n).filter p).card + (if p n then 1 else 0) := by
  rw [Finset.range_succ, Finset.filter_insert]
  split
  · rw [Finset.card_insert_of_not_mem (by simp)]
  · simp

end Helpers

section JsFind

theorem jsFind_some_eq (labels : List String) (s : String) :
    jsFind labels (some s) =
      match labels.findIdx? (fun x => x == s) with
      | some j => (j : Int)
      | none => -1 := rfl

theorem jsFind_lt (labels : List String) (v : Option String) :
    jsFind labels v < (labels.length : Int) := by
  match v with
  | none => show (-1 : Int) < _; omega
  | some s =>
    rw [jsFind_some_eq]
    cases hf : labels.findIdx? (fun x => x == s) with
    | none => show (-1 : Int) < _; omega
    | some j =>
      obtain ⟨hj, -, -⟩ := List.findIdx?_eq_some_iff_getElem.mp hf
      show (j : Int) < _
      exact_mod_cast hj

theorem jsFind_nonneg_of_mem {labels : List String} {s : String}
    (h : s ∈ labels) : 0 ≤ jsFind labels (some s) := by
  rw [jsFind_some_eq]
  cases hf : labels.findIdx? (fun x => x == s) with
  | none =>
    rw [List.findIdx?_eq_none_iff] at hf
    exact absurd (hf s h) (by simp)
  | some j => show (0 : Int) ≤ (j : Int); omega

theorem jsFind_getD_eq {labels : List String} {s : String} {j : Nat}
    (h : jsFind labels (some s) = (j : Int)) :
    labels.getD j "" = s := by
  rw [jsFind_some_eq] at h
  cases hf : labels.findIdx? (fun x => x == s) with
  | none =>
    rw [hf] at h
    have h' : (-1 : Int) = (j : Int) := h
    omega
  | some i =>
    rw [hf] at h
    have h' : (i : Int) = (j : Int) := h
    have hij : i = j := by exact_mod_cast h'
    subst hij
    obtain ⟨hi, hp, -⟩ := List.findIdx?_eq_some_iff_getElem.mp hf
    rw [List.getD_eq_getElem?_getD, List.getElem?_eq_getElem hi]
    simpa using hp

theorem jsFind_inj {labels : List String} {s t : String}
    (hs : 0 ≤ jsFind labels (some s))
    (h : jsFind labels (some s) = jsFind labels (some t)) : s = t := by
  obtain ⟨j, hj⟩ := Int.eq_ofNat_of_zero_le hs
  rw [← jsFind_getD_eq hj, jsFind_getD_eq (h ▸ hj)]

theorem jsFind_nodup_getD {labels : List String} (hnd : labels.Nodup)
    {r : Nat} (hr : r < labels.length) :
    jsFind labels (some (labels.getD r "")) = (r : Int) := by
  have hfind : labels.findIdx? (fun x => x == labels.getD r "") = some r := by
    rw [List.findIdx?_eq_some_iff_getElem]
    refine ⟨hr, by simp [List.getD_eq_getElem?_getD, List.getElem?_eq_getElem hr], ?_⟩
    intro j hj
    have hjlt : j < labels.length := Nat.lt_trans hj hr
    have hne : labels[j] ≠ labels[r] := fun hcon =>
      absurd (hnd.getElem_inj_iff.mp hcon) (Nat.ne_of_lt hj)
    simp [List.getD_eq_getElem?_getD, List.getElem?_eq_getElem hr, hne]
  rw [jsFind_some_eq, hfind]

end JsFind

section Loop

theorem kappaLoop_zero (labels a1 a2 : List String) :
    kappaLoop labels a1 a2 0 =
      some (List.replicate labels.length (List.replicate labels.length 0), 0) := rfl

theorem kappaLoop_succ (labels a1 a2 : List String) (n : Nat) :
    kappaLoop labels a1 a2 (n + 1) =
      kappaStep labels a1 a2 (kappaLoop labels a1 a2 n) n := by
  rw [kappaLoop, kappaLoop, List.range_succ, List.foldl_append]
  rfl

theorem matInc_length (m : List (List Nat)) (r c : Nat) :
    (matInc m r c).length = m.length := by
  rw [matInc, List.length_set]

theorem matInc_getD_row_ne {m : List (List Nat)} {r r' : Nat} (c : Nat)
    (h : r ≠ r') : (matInc m r c).getD r' [] = m.getD r' [] :=
  getD_set_ne h

theorem matInc_getD_row_self {m : List (List Nat)} {r : Nat} (c : Nat)
    (h : r < m.length) :
    (matInc m r c).getD r [] = (m.getD r []).set c ((m.getD r []).getD c 0 + 1) :=
  getD_set_self h

theorem matInc_row_length {m : List (List Nat)} {r c r' : Nat}
    (hr : r < m.length) :
    ((matInc m r c).getD r' []).length = (m.getD r' []).length := by
  by_cases h : r = r'
  · subst h
    rw [matInc_getD_row_self c hr, List.length_set]
  · rw [matInc_getD_row_ne c h]

theorem matInc_getD {m : List (List Nat)} {r c r' c' : Nat}
    (hr : r < m.length) (hc : c < (m.getD r []).length) :
    ((matInc m r c).getD r' []).getD c' 0 =
      (m.getD r' []).getD c' 0 + (if r' = r ∧ c' = c then 1 else 0) := by
  by_cases hrr : r = r'
  · subst hrr
    rw [matInc_getD_row_self c hr]
    by_cases hcc : c' = c
    · subst hcc
      rw [getD_set_self hc]
      simp
    · rw [getD_set_ne (Ne.symm hcc)]
      simp [hcc]
  · rw [matInc_getD_row_ne c hrr,
      if_neg (fun h : r' = r ∧ c' = c => hrr h.1.symm), Nat.add_zero]

theorem cellCount_zero (labels a1 a2 : List String) (r c : Nat) :
    cellCount labels a1 a2 0 r c = 0 := by
  simp [cellCount]

theorem cellCount_succ (labels a1 a2 : List String) (n r c : Nat) :
    cellCount labels a1 a2 (n + 1) r c =
      cellCount labels a1 a2 n r c +
        (if idxAt labels a1 n = (r : Int) ∧ idxAt labels a2 n = (c : Int)
         then 1 else 0) :=
  filter_range_succ_card _ n

theorem obsCount_zero (labels a1 a2 : List String) :
    obsCount labels a1 a2 0 = 0 := by
  simp [obsCount]

theorem obsCount_succ (labels a1 a2 : List String) (n : Nat) :
    obsCount labels a1 a2 (n + 1) =
      obsCount labels a1 a2 n +
        (if idxAt labels a1 n = idxAt labels a2 n then 1 else 0) :=
  filter_range_succ_card _ n

/-- The complete characterisation of the counting loop when every
annotator1 label is found in the label set: the loop succeeds, the matrix
stays `k × k`, each cell holds the co-occurrence count of its index pair,
and the agreement counter holds the index-match count. -/
theorem kappaLoop_spec (labels a1 a2 : List String) (n : Nat)
    (h1 : ∀ i, i < n → 0 ≤ idxAt labels a1 i) :
    ∃ M obs, kappaLoop labels a1 a2 n = some (M, obs) ∧
      M.length = labels.length ∧
      (∀ r, r < labels.length → (M.getD r []).length = labels.length) ∧
      (∀ r, r < labels.length → ∀ c, c < labels.length →
        (M.getD r []).getD c 0 = cellCount labels a1 a2 n r c) ∧
      obs = obsCount labels a1 a2 n := by
  induction n with
  | zero =>
    refine ⟨_, _, kappaLoop_zero labels a1 a2, by simp, ?_, ?_, (obsCount_zero _ _ _).symm⟩
    · intro r hr
      rw [getD_replicate hr]
      simp
    · intro r hr c hc
      rw [getD_replicate hr, getD_replicate hc, cellCount_zero]
  | succ n ih =>
    obtain ⟨M, obs, hM, hlen, hrowlen, hcell, hobs⟩ :=
      ih (fun i hi => h1 i (Nat.lt_trans hi n.lt_succ_self))
    have hi1 : 0 ≤ idxAt labels a1 n := h1 n n.lt_succ_self
    have hi1lt : idxAt labels a1 n < (labels.length : Int) := jsFind_lt labels _
    have hi2lt : idxAt labels a2 n < (labels.length : Int) := jsFind_lt labels _
    rw [kappaLoop_succ, hM, kappaStep]
    simp only [idxAt] at hi1 hi1lt hi2lt ⊢
    rw [if_neg (by omega)]
    set j1 : Int := jsFind labels (a1.get? n) with hj1
    set j2 : Int := jsFind labels (a2.get? n) with hj2
    have hr0 : j1.toNat < labels.length := by omega
    by_cases h2 : 0 ≤ j2
    · have hc0 : j2.toNat < labels.length := by omega
      rw [if_pos h2]
      refine ⟨_, _, rfl, ?_, ?_, ?_, ?_⟩
      · rw [matInc_length, hlen]
      · intro r hr
        rw [matInc_row_length (hlen ▸ hr0), hrowlen r hr]
      · intro r hr c hc
        rw [matInc_getD (hlen ▸ hr0) (by rw [hrowlen _ hr0]; exact hc0),
          hcell r hr c hc, cellCount_succ]
        congr 1
        have hcast1 : (j1 = (r : Int)) ↔ (r = j1.toNat) := by omega
        have hcast2 : (j2 = (c : Int)) ↔ (c = j2.toNat) := by omega
        simp only [idxAt, ← hj1, ← hj2, hcast1, hcast2]
      · rw [hobs, obsCount_succ]
        simp only [idxAt, ← hj1, ← hj2]
        by_cases hje : j1 = j2 <;> simp [hje]
    · rw [if_neg h2]
      refine ⟨_, _, rfl, hlen, hrowlen, ?_, ?_⟩
      · intro r hr c hc
        have hne : ¬(idxAt labels a1 n = (r : Int) ∧ idxAt labels a2 n = (c : Int)) := by
          simp only [idxAt, ← hj2]
          rintro ⟨-, hq⟩
          omega
        rw [hcell r hr c hc, cellCount_succ, if_neg hne, Nat.add_zero]
      · have hnej : ¬(j1 = j2) := by omega
        have hne : ¬(idxAt labels a1 n = idxAt labels a2 n) := by
          simp only [idxAt, ← hj1, ← hj2]
          exact hnej
        rw [if_neg hnej, hobs, obsCount_succ, if_neg hne, Nat.add_zero]

end Loop

section Counts

theorem idxAt_nonneg_of_inset {labels a : List String}
    (hin : ∀ x ∈ a, x ∈ labels) {i : Nat} (hi : i < a.length) :
    0 ≤ idxAt labels a i := by
  rw [idxAt, List.get?_eq_getElem?, List.getElem?_eq_getElem hi]
  exact jsFind_nonneg_of_mem (hin _ (List.getElem_mem hi))

theorem idxAt_lt (labels a : List String) (i : Nat) :
    idxAt labels a i < (labels.length : Int) :=
  jsFind_lt labels (a.get? i)

theorem idxAt_neg_iff {labels a : List String} {i : Nat} (hi : i < a.length) :
    idxAt labels a i < 0 ↔ a.getD i "" ∉ labels := by
  have hgd : a.getD i "" = a[i] := by
    rw [List.getD_eq_getElem?_getD, List.getElem?_eq_getElem hi]; rfl
  rw [idxAt, List.get?_eq_getElem?, List.getElem?_eq_getElem hi, hgd]
  constructor
  · intro hneg hmem
    exact absurd (jsFind_nonneg_of_mem hmem) (by omega)
  · intro hmem
    rw [jsFind_some_eq]
    have hf : labels.findIdx? (fun x => x == a[i]) = none := by
      rw [List.findIdx?_eq_none_iff]
      intro x hx
      simp only [beq_eq_false_iff_ne, ne_eq]
      exact fun hcon => hmem (hcon ▸ hx)
    rw [hf]
    norm_num

theorem sum_cellCount_row {labels a1 a2 : List String} {n : Nat}
    (hn2 : ∀ i, i < n → 0 ≤ idxAt labels a2 i) (r : Nat) :
    ∑ c ∈ Finset.range labels.length, cellCount labels a1 a2 n r c =
      idxCount labels a1 n r := by
  have hfib := Finset.card_eq_sum_card_fiberwise
      (f := fun i => (idxAt labels a2 i).toNat)
      (s := (Finset.range n).filter (fun i => idxAt labels a1 i = (r : Int)))
      (t := Finset.range labels.length)
      (fun i hi => by
        simp only [Finset.mem_filter, Finset.mem_range] at hi
        show (idxAt labels a2 i).toNat ∈ Finset.range labels.length
        rw [Finset.mem_range]
        have hlt := idxAt_lt labels a2 i
        have hge := hn2 i hi.1
        omega)
  rw [idxCount, hfib]
  refine Finset.sum_congr rfl (fun c _hc => ?_)
  rw [cellCount, Finset.filter_filter]
  congr 1
  refine Finset.filter_congr (fun i hi => ?_)
  rw [Finset.mem_range] at hi
  have h2 := hn2 i hi
  show idxAt labels a1 i = (r : Int) ∧ idxAt labels a2 i = (c : Int) ↔
    idxAt labels a1 i = (r : Int) ∧ (idxAt labels a2 i).toNat = c
  constructor
  · rintro ⟨ha, hb⟩
    exact ⟨ha, by omega⟩
  · rintro ⟨ha, hb⟩
    exact ⟨ha, by omega⟩

theorem sum_cellCount_col {labels a1 a2 : List String} {n : Nat}
    (hn1 : ∀ i, i < n → 0 ≤ idxAt labels a1 i) (c : Nat) :
    ∑ r ∈ Finset.range labels.length, cellCount labels a1 a2 n r c =
      idxCount labels a2 n c := by
  have hfib := Finset.card_eq_sum_card_fiberwise
      (f := fun i => (idxAt labels a1 i).toNat)
      (s := (Finset.range n).filter (fun i => idxAt labels a2 i = (c : Int)))
      (t := Finset.range labels.length)
      (fun i hi => by
        simp only [Finset.mem_filter, Finset.mem_range] at hi
        show (idxAt labels a1 i).toNat ∈ Finset.range labels.length
        rw [Finset.mem_range]
        have hlt := idxAt_lt labels a1 i
        have hge := hn1 i hi.1
        omega)
  rw [idxCount, hfib]
  refine Finset.sum_congr rfl (fun r _hr => ?_)
  rw [cellCount, Finset.filter_filter]
  congr 1
  refine Finset.filter_congr (fun i hi => ?_)
  rw [Finset.mem_range] at hi
  have h1 := hn1 i hi
  show idxAt labels a1 i = (r : Int) ∧ idxAt labels a2 i = (c : Int) ↔
    idxAt labels a2 i = (c : Int) ∧ (idxAt labels a1 i).toNat = r
  constructor
  · rintro ⟨ha, hb⟩
    exact ⟨hb, by omega⟩
  · rintro ⟨ha, hb⟩
    exact ⟨by omega, ha⟩

theorem sum_idxCount {labels a : List String} {n : Nat}
    (hn : ∀ i, i < n → 0 ≤ idxAt labels a i) :
    ∑ r ∈ Finset.range labels.length, idxCount labels a n r = n := by
  have hfib := Finset.card_eq_sum_card_fiberwise
      (f := fun i => (idxAt labels a i).toNat) (s := Finset.range n)
      (t := Finset.range labels.length)
      (fun i hi => by
        rw [Finset.mem_range] at hi
        show (idxAt labels a i).toNat ∈ Finset.range labels.length
        rw [Finset.mem_range]
        have hlt := idxAt_lt labels a i
        have hge := hn i hi
        omega)
  rw [Finset.card_range] at hfib
  refine Eq.trans (Finset.sum_congr rfl (fun r _hr => ?_)) hfib.symm
  rw [idxCount]
  congr 1
  refine (Finset.filter_congr (fun i hi => ?_)).symm
  rw [Finset.mem_range] at hi
  have hge := hn i hi
  show (idxAt labels a i).toNat = r ↔ idxAt labels a i = (r : Int)
  omega

theorem idxCount_le (labels a : List String) (n r : Nat) :
    idxCount labels a n r ≤ n := by
  rw [idxCount]
  calc ((Finset.range n).filter _).card ≤ (Finset.range n).card :=
        Finset.card_filter_le _ _
    _ = n := Finset.card_range n

theorem obsCount_le (labels a1 a2 : List String) (n : Nat) :
    obsCount labels a1 a2 n ≤ n := by
  rw [obsCount]
  calc ((Finset.range n).filter _).card ≤ (Finset.range n).card :=
        Finset.card_filter_le _ _
    _ = n := Finset.card_range n

end Counts

section CatSpec

/-- Master characterisation of `calculateKappaForCategory` on in-set
inputs: the call succeeds, and every field of the result is expressed
through the counting functions `obsCount`, `cellCount` and `idxCount`. -/
theorem calculateKappaForCategory_spec (a1 a2 labels : List String)
    (hin1 : ∀ x ∈ a1, x ∈ labels) (hin2 : ∀ x ∈ a2, x ∈ labels)
    (hlen : a2.length = a1.length) :
    ∃ res, calculateKappaForCategory a1 a2 labels = some res ∧
      res.observedAgreement =
        (obsCount labels a1 a2 a1.length : ℚ) / (a1.length : ℚ) ∧
      res.expectedAgreement =
        ∑ r ∈ Finset.range labels.length,
          ((idxCount labels a1 a1.length r : ℚ) / (a1.length : ℚ)) *
            ((idxCount labels a2 a1.length r : ℚ) / (a1.length : ℚ)) ∧
      res.kappa = (if res.expectedAgreement = 1 then 1
        else (res.observedAgreement - res.expectedAgreement) /
          (1 - res.expectedAgreement)) ∧
      res.matrix.length = labels.length ∧
      (∀ r, r < labels.length → (res.matrix.getD r []).length = labels.length) ∧
      (∀ r, r < labels.length → ∀ c, c < labels.length →
        (res.matrix.getD r []).getD c 0 = cellCount labels a1 a2 a1.length r c) ∧
      (∀ r, r < labels.length →
        (res.matrix.getD r []).sum = idxCount labels a1 a1.length r) ∧
      (∀ r, r < labels.length →
        (res.matrix.map (fun row => row.getD r 0)).sum =
          idxCount labels a2 a1.length r) := by
  have hn1 : ∀ i, i < a1.length → 0 ≤ idxAt labels a1 i :=
    fun i hi => idxAt_nonneg_of_inset hin1 hi
  have hn2 : ∀ i, i < a1.length → 0 ≤ idxAt labels a2 i :=
    fun i hi => idxAt_nonneg_of_inset hin2 (hlen ▸ hi)
  obtain ⟨M, obs, hM, hMlen, hrowlen, hcell, hobs⟩ :=
    kappaLoop_spec labels a1 a2 a1.length hn1
  have hrowsum : ∀ r, r < labels.length →
      (M.getD r []).sum = idxCount labels a1 a1.length r := by
    intro r hr
    rw [list_sum_eq_sum_getD, hrowlen r hr,
      Finset.sum_congr rfl (fun c hc => hcell r hr c (Finset.mem_range.mp hc))]
    exact sum_cellCount_row hn2 r
  have hcolsum : ∀ r, r < labels.length →
      (M.map (fun row => row.getD r 0)).sum = idxCount labels a2 a1.length r := by
    intro r hr
    rw [list_map_sum_eq_sum_getD M (fun row => row.getD r 0) [], hMlen,
      Finset.sum_congr rfl (fun x hx => hcell x (Finset.mem_range.mp hx) r hr)]
    exact sum_cellCount_col hn1 r
  simp only [calculateKappaForCategory, hM]
  refine ⟨_, rfl, ?_, ?_, rfl, hMlen, hrowlen, hcell, hrowsum, hcolsum⟩
  · show (obs : ℚ) / (a1.length : ℚ) = _
    rw [hobs]
  · show ((List.range labels.length).map _).sum = _
    rw [sum_map_range]
    refine Finset.sum_congr rfl (fun r hr => ?_)
    have hrk := Finset.mem_range.mp hr
    show ((List.range labels.length).map
        (fun idx => ((M.getD idx []).sum : ℚ) / (a1.length : ℚ))).getD r 0 *
      ((List.range labels.length).map
        (fun idx => (((M.map (fun row => row.getD idx 0)).sum : Nat) : ℚ) /
          (a1.length : ℚ))).getD r 0 = _
    rw [getD_map_range hrk, getD_map_range hrk, hrowsum r hrk, hcolsum r hrk]

theorem kappaLoop_none_of_bad (labels a1 a2 : List String) (n : Nat)
    (h : ∃ i, i < n ∧ idxAt labels a1 i < 0) :
    kappaLoop labels a1 a2 n = none := by
  induction n with
  | zero =>
    obtain ⟨i, hi, -⟩ := h
    omega
  | succ n ih =>
    by_cases hb : ∃ i, i < n ∧ idxAt labels a1 i < 0
    · rw [kappaLoop_succ, ih hb]
      rfl
    · obtain ⟨i, hi, hneg⟩ := h
      push_neg at hb
      have hin : i = n := by
        rcases Nat.lt_succ_iff_lt_or_eq.mp hi with h' | h'
        · exact absurd hneg (by have := hb i h'; omega)
        · exact h'
      rw [hin] at hneg
      rw [kappaLoop_succ]
      cases hL : kappaLoop labels a1 a2 n with
      | none => rfl
      | some st =>
        obtain ⟨m, obs⟩ := st
        simp only [kappaStep]
        rw [if_pos (show jsFind labels (a1.get? n) < 0 from hneg)]

/-- An annotator1 label outside the label set makes
`calculateKappaForCategory` throw (modelled by `none`). -/
theorem calculateKappaForCategory_none_of_bad (a1 a2 labels : List String)
    (h : ∃ i, i < a1.length ∧ a1.getD i "" ∉ labels) :
    calculateKappaForCategory a1 a2 labels = none := by
  obtain ⟨i, hi, hbad⟩ := h
  have hloop : kappaLoop labels a1 a2 a1.length = none :=
    kappaLoop_none_of_bad labels a1 a2 a1.length
      ⟨i, hi, (idxAt_neg_iff hi).mpr hbad⟩
  simp only [calculateKappaForCategory, hloop]

end CatSpec

section Bridges

theorem getD_eq_getElem_of_lt {α : Type*} {l : List α} {i : Nat} {d : α}
    (h : i < l.length) : l.getD i d = l[i] := by
  rw [List.getD_eq_getElem?_getD, List.getElem?_eq_getElem h]
  rfl

theorem idxAt_eq_jsFind_getElem {labels a : List String} {i : Nat}
    (h : i < a.length) : idxAt labels a i = jsFind labels (some (a[i])) := by
  rw [idxAt, List.get?_eq_getElem?, List.getElem?_eq_getElem h]

/-- On in-set inputs the loop's agreement counter counts exactly the
positions where the two sequences carry equal labels. -/
theorem obsCount_eq_matchCount {labels a1 a2 : List String}
    (hin1 : ∀ x ∈ a1, x ∈ labels) (hin2 : ∀ x ∈ a2, x ∈ labels)
    (hlen : a2.length = a1.length) :
    obsCount labels a1 a2 a1.length =
      ((Finset.range a1.length).filter
        (fun i => a1.getD i "" = a2.getD i "")).card := by
  rw [obsCount]
  congr 1
  refine Finset.filter_congr (fun i hi => ?_)
  rw [Finset.mem_range] at hi
  have h1i : i < a1.length := hi
  have h2i : i < a2.length := by omega
  rw [getD_eq_getElem_of_lt h1i, getD_eq_getElem_of_lt h2i,
    idxAt_eq_jsFind_getElem h1i, idxAt_eq_jsFind_getElem h2i]
  constructor
  · intro h
    exact jsFind_inj (jsFind_nonneg_of_mem (hin1 _ (List.getElem_mem h1i))) h
  · intro h
    rw [h]

/-- On in-set inputs over a duplicate-free label list, "index `r` was
computed at position `i`" is "position `i` carries the label at
position `r`". -/
theorem idxAt_eq_iff_label {labels a : List String} (hnd : labels.Nodup)
    {i r : Nat} (hi : i < a.length) (hr : r < labels.length) :
    idxAt labels a i = (r : Int) ↔ a.getD i "" = labels.getD r "" := by
  rw [getD_eq_getElem_of_lt hi, idxAt_eq_jsFind_getElem hi]
  constructor
  · intro h
    exact (jsFind_getD_eq h).symm
  · intro h
    rw [h]
    exact jsFind_nodup_getD hnd hr

end Bridges

/-- Concrete run: `seq1 = [positive, negative]`, `seq2 = [positive,
positive]`. -/
theorem catEval_pn_pp :
    calculateKappaForCategory ["positive", "negative"]
      ["positive", "positive"] sentimentLabels =
      some ⟨1/2, 1/2, 0, [[1,0,0],[1,0,0],[0,0,0]]⟩ := by
  have h : kappaLoop sentimentLabels ["positive", "negative"]
      ["positive", "positive"] 2 = some ([[1,0,0],[1,0,0],[0,0,0]], 1) := by
    decide
  simp only [calculateKappaForCategory, List.length_cons, List.length_nil, h]
  norm_num [List.range_succ, sentimentLabels]

/-- Concrete run: both annotators constantly `neutral`. -/
theorem catEval_nn_nn :
    calculateKappaForCategory ["neutral", "neutral"] ["neutral", "neutral"]
      sentimentLabels = some ⟨1, 1, 1, [[0,0,0],[0,0,0],[0,0,2]]⟩ := by
  have h : kappaLoop sentimentLabels ["neutral", "neutral"]
      ["neutral", "neutral"] 2 = some ([[0,0,0],[0,0,0],[0,0,2]], 2) := by
    decide
  simp only [calculateKappaForCategory, List.length_cons, List.length_nil, h]
  norm_num [List.range_succ, sentimentLabels]

/-- Concrete run: the two annotators always flip `positive`/`negative`. -/
theorem catEval_pn_np :
    calculateKappaForCategory ["positive", "negative"]
      ["negative", "positive"] sentimentLabels =
      some ⟨0, 1/2, -1, [[0,1,0],[1,0,0],[0,0,0]]⟩ := by
  have h : kappaLoop sentimentLabels ["positive", "negative"]
      ["negative", "positive"] 2 = some ([[0,1,0],[1,0,0],[0,0,0]], 0) := by
    decide
  simp only [calculateKappaForCategory, List.length_cons, List.length_nil, h]
  norm_num [List.range_succ, sentimentLabels]

/-- **C1**: for every pair of equal-length non-empty label sequences drawn
from the fixed label set, the `observedAgreement` returned by
`calculateKappaForCategory` equals the number of indices `i` with
`seq1[i] == seq2[i]` divided by the sequence length `n`. -/
theorem observedAgreement_eq_match_ratio (a1 a2 labels : List String)
    (res : CatResult) (hne : 0 < a1.length) (hlen : a2.length = a1.length)
    (hin1 : ∀ x ∈ a1, x ∈ labels) (hin2 : ∀ x ∈ a2, x ∈ labels)
    (hres : calculateKappaForCategory a1 a2 labels = some res) :
    res.observedAgreement =
      (((Finset.range a1.length).filter
        (fun i => a1.getD i "" = a2.getD i "")).card : ℚ) / (a1.length : ℚ) := by
  obtain ⟨res', hres', hobs, -⟩ :=
    calculateKappaForCategory_spec a1 a2 labels hin1 hin2 hlen
  rw [hres] at hres'
  injection hres' with he
  subst he
  rw [hobs, obsCount_eq_matchCount hin1 hin2 hlen]

/-- **C1 witness**: `seq1 = [positive, negative]`, `seq2 = [positive,
positive]` agree at exactly one of two indices, and the returned
`observedAgreement` is `1/2`. -/
theorem observedAgreement_eq_match_ratio_witness :
    (⟨1/2, 1/2, 0, [[1,0,0],[1,0,0],[0,0,0]]⟩ : CatResult).observedAgreement =
      (((Finset.range (["positive", "negative"] : List String).length).filter
        (fun i => (["positive", "negative"] : List String).getD i "" =
          (["positive", "positive"] : List String).getD i "")).card : ℚ) /
        ((["positive", "negative"] : List String).length : ℚ) :=
  observedAgreement_eq_match_ratio ["positive", "negative"]
    ["positive", "positive"] sentimentLabels _
    (by decide) (by decide) (by decide) (by decide) catEval_pn_pp

/-- **C2**: `calculateKappaForCategory` builds a `k × k` matrix whose
entry `M[r][c]` counts the indices where annotator1 wrote the label at
position `r` and annotator2 the label at position `c` of the fixed label
order, and the sum of all `k * k` cells equals `n`. -/
theorem confusion_matrix_counts (a1 a2 labels : List String)
    (res : CatResult) (hne : 0 < a1.length) (hlen : a2.length = a1.length)
    (hnd : labels.Nodup)
    (hin1 : ∀ x ∈ a1, x ∈ labels) (hin2 : ∀ x ∈ a2, x ∈ labels)
    (hres : calculateKappaForCategory a1 a2 labels = some res) :
    res.matrix.length = labels.length ∧
    (∀ r, r < labels.length → (res.matrix.getD r []).length = labels.length) ∧
    (∀ r, r < labels.length → ∀ c, c < labels.length →
      (res.matrix.getD r []).getD c 0 =
        ((Finset.range a1.length).filter
          (fun i => a1.getD i "" = labels.getD r "" ∧
            a2.getD i "" = labels.getD c "")).card) ∧
    (∑ r ∈ Finset.range labels.length, ∑ c ∈ Finset.range labels.length,
      (res.matrix.getD r []).getD c 0) = a1.length := by
  obtain ⟨res', hres', -, -, -, hMlen, hrowlen, hcell, hrowsum, -⟩ :=
    calculateKappaForCategory_spec a1 a2 labels hin1 hin2 hlen
  rw [hres] at hres'
  injection hres' with he
  subst he
  have hn1 : ∀ i, i < a1.length → 0 ≤ idxAt labels a1 i :=
    fun i hi => idxAt_nonneg_of_inset hin1 hi
  have hn2 : ∀ i, i < a1.length → 0 ≤ idxAt labels a2 i :=
    fun i hi => idxAt_nonneg_of_inset hin2 (hlen ▸ hi)
  refine ⟨hMlen, hrowlen, ?_, ?_⟩
  · intro r hr c hc
    rw [hcell r hr c hc, cellCount]
    congr 1
    refine Finset.filter_congr (fun i hi => ?_)
    rw [Finset.mem_range] at hi
    rw [idxAt_eq_iff_label hnd hi hr,
      idxAt_eq_iff_label hnd (show i < a2.length by omega) hc]
  · calc ∑ r ∈ Finset.range labels.length, ∑ c ∈ Finset.range labels.length,
          (res.matrix.getD r []).getD c 0
        = ∑ r ∈ Finset.range labels.length, (res.matrix.getD r []).sum := by
          refine Finset.sum_congr rfl (fun r hr => ?_)
          have hrk := Finset.mem_range.mp hr
          rw [list_sum_eq_sum_getD, hrowlen r hrk]
      _ = ∑ r ∈ Finset.range labels.length, idxCount labels a1 a1.length r := by
          refine Finset.sum_congr rfl (fun r hr => ?_)
          exact hrowsum r (Finset.mem_range.mp hr)
      _ = a1.length := sum_idxCount hn1

/-- **C2 witness**: on `seq1 = [positive, negative]`, `seq2 = [positive,
positive]` over the sentiment labels, the matrix cells total `n = 2`. -/
theorem confusion_matrix_counts_witness :
    (∑ r ∈ Finset.range (sentimentLabels.length),
      ∑ c ∈ Finset.range (sentimentLabels.length),
        ((⟨1/2, 1/2, 0, [[1,0,0],[1,0,0],[0,0,0]]⟩ : CatResult).matrix.getD
          r []).getD c 0) = (["positive", "negative"] : List String).length :=
  (confusion_matrix_counts ["positive", "negative"] ["positive", "positive"]
    sentimentLabels _ (by decide) (by decide) (by decide) (by decide)
    (by decide) catEval_pn_pp).2.2.2

/-- **C3**: the `expectedAgreement` returned by
`calculateKappaForCategory` equals the sum over label indices `r` of
`p1[r] * p2[r]`, where `p1[r]` is the sum of row `r` of the confusion
matrix divided by `n` and `p2[r]` the sum of column `r` divided by `n`. -/
theorem expectedAgreement_eq_marginal_products (a1 a2 labels : List String)
    (res : CatResult) (hne : 0 < a1.length) (hlen : a2.length = a1.length)
    (hin1 : ∀ x ∈ a1, x ∈ labels) (hin2 : ∀ x ∈ a2, x ∈ labels)
    (hres : calculateKappaForCategory a1 a2 labels = some res) :
    res.expectedAgreement =
      ∑ r ∈ Finset.range labels.length,
        (((res.matrix.getD r []).sum : ℚ) / (a1.length : ℚ)) *
          ((((res.matrix.map (fun row => row.getD r 0)).sum : Nat) : ℚ) /
            (a1.length : ℚ)) := by
  obtain ⟨res', hres', -, hpe, -, -, -, -, hrowsum, hcolsum⟩ :=
    calculateKappaForCategory_spec a1 a2 labels hin1 hin2 hlen
  rw [hres] at hres'
  injection hres' with he
  subst he
  rw [hpe]
  refine Finset.sum_congr rfl (fun r hr => ?_)
  have hrk := Finset.mem_range.mp hr
  rw [hrowsum r hrk, hcolsum r hrk]

/-- **C3 witness**: on `seq1 = [positive, negative]`, `seq2 = [positive,
positive]`, the marginal products `(1/2)·1 + (1/2)·0 + 0·0` give the
returned `expectedAgreement = 1/2`. -/
theorem expectedAgreement_eq_marginal_products_witness :
    (⟨1/2, 1/2, 0, [[1,0,0],[1,0,0],[0,0,0]]⟩ : CatResult).expectedAgreement =
      ∑ r ∈ Finset.range (sentimentLabels.length),
        ((((⟨1/2, 1/2, 0, [[1,0,0],[1,0,0],[0,0,0]]⟩ : CatResult).matrix.getD
            r []).sum : ℚ) / ((["positive", "negative"] : List String).length : ℚ)) *
          (((((⟨1/2, 1/2, 0, [[1,0,0],[1,0,0],[0,0,0]]⟩ : CatResult).matrix.map
            (fun row => row.getD r 0)).sum : Nat) : ℚ) /
            ((["positive", "negative"] : List String).length : ℚ)) :=
  expectedAgreement_eq_marginal_products ["positive", "negative"]
    ["positive", "positive"] sentimentLabels _
    (by decide) (by decide) (by decide) (by decide) catEval_pn_pp

/-- **C4**: `calculateKappaForCategory` returns `kappa = 1` whenever
`expectedAgreement = 1` exactly, otherwise returns
`(Po − Pe) / (1 − Pe)`; and when both sequences constantly repeat one
single label, `expectedAgreement = 1` and `kappa = 1`. -/
theorem kappa_degenerate_guard (a1 a2 labels : List String)
    (res : CatResult) (hne : 0 < a1.length) (hlen : a2.length = a1.length)
    (hin1 : ∀ x ∈ a1, x ∈ labels) (hin2 : ∀ x ∈ a2, x ∈ labels)
    (hres : calculateKappaForCategory a1 a2 labels = some res) :
    (res.expectedAgreement = 1 → res.kappa = 1) ∧
    (res.expectedAgreement ≠ 1 →
      res.kappa = (res.observedAgreement - res.expectedAgreement) /
        (1 - res.expectedAgreement)) ∧
    (∀ l ∈ labels, (∀ x ∈ a1, x = l) → (∀ x ∈ a2, x = l) →
      res.expectedAgreement = 1 ∧ res.kappa = 1) := by
  obtain ⟨res', hres', hobs, hpe, hkappa, -⟩ :=
    calculateKappaForCategory_spec a1 a2 labels hin1 hin2 hlen
  rw [hres] at hres'
  injection hres' with he
  subst he
  refine ⟨fun h => by rw [hkappa, if_pos h], fun h => by rw [hkappa, if_neg h], ?_⟩
  intro l hl hall1 hall2
  have hn0 : (a1.length : ℚ) ≠ 0 := by
    exact_mod_cast hne.ne'
  have hj0 : 0 ≤ jsFind labels (some l) := jsFind_nonneg_of_mem hl
  have hjlt : jsFind labels (some l) < (labels.length : Int) :=
    jsFind_lt labels (some l)
  have hr0 : ((jsFind labels (some l)).toNat : Int) = jsFind labels (some l) :=
    Int.toNat_of_nonneg hj0
  have hr0lt : (jsFind labels (some l)).toNat < labels.length := by omega
  have hidx1 : ∀ i, i < a1.length → idxAt labels a1 i = jsFind labels (some l) := by
    intro i hi
    rw [idxAt_eq_jsFind_getElem hi, hall1 _ (List.getElem_mem hi)]
  have hidx2 : ∀ i, i < a1.length → idxAt labels a2 i = jsFind labels (some l) := by
    intro i hi
    have hi2 : i < a2.length := by omega
    rw [idxAt_eq_jsFind_getElem hi2, hall2 _ (List.getElem_mem hi2)]
  have hcnt : ∀ a : List String,
      (∀ i, i < a1.length → idxAt labels a i = jsFind labels (some l)) →
      ∀ r : Nat, idxCount labels a a1.length r =
        if r = (jsFind labels (some l)).toNat then a1.length else 0 := by
    intro a hidx r
    rw [idxCount]
    by_cases hrr : r = (jsFind labels (some l)).toNat
    · subst hrr
      rw [if_pos rfl, Finset.filter_true_of_mem, Finset.card_range]
      intro i hi
      rw [hidx i (Finset.mem_range.mp hi)]
      exact hr0.symm
    · rw [if_neg hrr, Finset.filter_false_of_mem, Finset.card_empty]
      intro i hi
      rw [hidx i (Finset.mem_range.mp hi)]
      intro hcon
      exact hrr (by omega)
  have hPe : res.expectedAgreement = 1 := by
    rw [hpe]
    have hterm : ∀ r ∈ Finset.range labels.length,
        ((idxCount labels a1 a1.length r : ℚ) / (a1.length : ℚ)) *
          ((idxCount labels a2 a1.length r : ℚ) / (a1.length : ℚ)) =
        if r = (jsFind labels (some l)).toNat then 1 else 0 := by
      intro r _hr
      rw [hcnt a1 hidx1 r, hcnt a2 hidx2 r]
      by_cases hrr : r = (jsFind labels (some l)).toNat
      · simp only [if_pos hrr, div_self hn0, one_mul]
      · simp only [if_neg hrr]
        norm_num
    rw [Finset.sum_congr rfl hterm,
      Finset.sum_ite_eq' (Finset.range labels.length)
        (jsFind labels (some l)).toNat (fun _ => (1 : ℚ)),
      if_pos (Finset.mem_range.mpr hr0lt)]
  exact ⟨hPe, by rw [hkappa, if_pos hPe]⟩

/-- **C4 witness**: both annotators constantly answering `neutral` on two
items gives `expectedAgreement = 1` and `kappa = 1`. -/
theorem kappa_degenerate_guard_witness :
    (⟨1, 1, 1, [[0,0,0],[0,0,0],[0,0,2]]⟩ : CatResult).expectedAgreement = 1 ∧
    (⟨1, 1, 1, [[0,0,0],[0,0,0],[0,0,2]]⟩ : CatResult).kappa = 1 :=
  (kappa_degenerate_guard ["neutral", "neutral"] ["neutral", "neutral"]
    sentimentLabels _ (by decide) (by decide) (by decide) (by decide)
    catEval_nn_nn).2.2 "neutral" (by decide) (by decide) (by decide)

/-- **C9**: on in-set equal-length non-empty inputs the returned kappa is
at most `1`, and on some input with `observedAgreement <
expectedAgreement` the returned kappa is negative. -/
theorem kappa_le_one_and_can_be_negative :
    (∀ (a1 a2 labels : List String) (res : CatResult), 0 < a1.length →
      a2.length = a1.length → (∀ x ∈ a1, x ∈ labels) → (∀ x ∈ a2, x ∈ labels) →
      calculateKappaForCategory a1 a2 labels = some res → res.kappa ≤ 1) ∧
    (∃ res, calculateKappaForCategory ["positive", "negative"]
        ["negative", "positive"] sentimentLabels = some res ∧
      res.observedAgreement < res.expectedAgreement ∧ res.kappa < 0) := by
  constructor
  · intro a1 a2 labels res hne hlen hin1 hin2 hres
    obtain ⟨res', hres', hobs, hpe, hkappa, -⟩ :=
      calculateKappaForCategory_spec a1 a2 labels hin1 hin2 hlen
    rw [hres] at hres'
    injection hres' with he
    subst he
    have hn0 : (0 : ℚ) < (a1.length : ℚ) := by exact_mod_cast hne
    have hn1 : ∀ i, i < a1.length → 0 ≤ idxAt labels a1 i :=
      fun i hi => idxAt_nonneg_of_inset hin1 hi
    have hPo : res.observedAgreement ≤ 1 := by
      rw [hobs, div_le_one hn0]
      exact_mod_cast obsCount_le labels a1 a2 a1.length
    have hPe : res.expectedAgreement ≤ 1 := by
      rw [hpe]
      calc ∑ r ∈ Finset.range labels.length,
            ((idxCount labels a1 a1.length r : ℚ) / (a1.length : ℚ)) *
              ((idxCount labels a2 a1.length r : ℚ) / (a1.length : ℚ))
          ≤ ∑ r ∈ Finset.range labels.length,
            ((idxCount labels a1 a1.length r : ℚ) / (a1.length : ℚ)) := by
            refine Finset.sum_le_sum (fun r _hr => ?_)
            have h2 : (idxCount labels a2 a1.length r : ℚ) / (a1.length : ℚ) ≤ 1 := by
              rw [div_le_one hn0]
              exact_mod_cast idxCount_le labels a2 a1.length r
            have h1nn : (0 : ℚ) ≤ (idxCount labels a1 a1.length r : ℚ) / (a1.length : ℚ) := by
              positivity
            calc (idxCount labels a1 a1.length r : ℚ) / (a1.length : ℚ) *
                  ((idxCount labels a2 a1.length r : ℚ) / (a1.length : ℚ))
                ≤ (idxCount labels a1 a1.length r : ℚ) / (a1.length : ℚ) * 1 :=
                  mul_le_mul_of_nonneg_left h2 h1nn
              _ = (idxCount labels a1 a1.length r : ℚ) / (a1.length : ℚ) :=
                  mul_one _
        _ = (((∑ r ∈ Finset.range labels.length,
              idxCount labels a1 a1.length r : Nat)) : ℚ) / (a1.length : ℚ) := by
            rw [← Finset.sum_div]
            push_cast
            rfl
        _ = 1 := by
            rw [sum_idxCount hn1, div_self hn0.ne']
    rw [hkappa]
    split
    · exact le_refl 1
    · rename_i hne1
      have hlt : res.expectedAgreement < 1 := lt_of_le_of_ne hPe hne1
      rw [div_le_one (by linarith)]
      linarith
  · refine ⟨⟨0, 1/2, -1, [[0,1,0],[1,0,0],[0,0,0]]⟩, catEval_pn_np, ?_, ?_⟩
    · show (0 : ℚ) < 1/2
      norm_num
    · show (-1 : ℚ) < 0
      norm_num

/-- **C9 witness**: on `seq1 = [positive, negative]`, `seq2 = [positive,
positive]` the returned kappa `0` is at most `1`. -/
theorem kappa_le_one_witness :
    (⟨1/2, 1/2, 0, [[1,0,0],[1,0,0],[0,0,0]]⟩ : CatResult).kappa ≤ 1 :=
  kappa_le_one_and_can_be_negative.1 ["positive", "negative"]
    ["positive", "positive"] sentimentLabels _
    (by decide) (by decide) (by decide) (by decide) catEval_pn_pp

/-- **C10 counterexample**: an annotator2 label outside the fixed set is
not treated as a data-integrity error: the computation completes normally
and returns an ordinary result — the offending pair is still counted in
`n = 2` (denominators `1/2`, `1/4`) while its matrix cell vanishes (the
cells total `1`, not `2`). -/
theorem out_of_set_label_not_reported :
    calculateKappaForCategory ["positive", "positive"] ["positive", "bogus"]
      sentimentLabels = some ⟨1/2, 1/4, 1/3, [[1,0,0],[0,0,0],[0,0,0]]⟩ := by
  have h : kappaLoop sentimentLabels ["positive", "positive"]
      ["positive", "bogus"] 2 = some ([[1,0,0],[0,0,0],[0,0,0]], 1) := by
    decide
  simp only [calculateKappaForCategory, List.length_cons, List.length_nil, h]
  norm_num [List.range_succ, sentimentLabels]

/-- **C10 amended**: an out-of-set label supplied by annotator1 makes the
computation throw (`matrix[-1]` is `undefined`; modelled by `none`),
while out-of-set labels supplied by annotator2 are silently tolerated:
whenever every annotator1 label is in the set the computation returns a
normal result, whatever annotator2 supplied. -/
theorem out_of_set_label_behavior :
    (∀ a1 a2 labels : List String,
      (∃ i, i < a1.length ∧ a1.getD i "" ∉ labels) →
      calculateKappaForCategory a1 a2 labels = none) ∧
    (∀ a1 a2 labels : List String, (∀ x ∈ a1, x ∈ labels) →
      ∃ res, calculateKappaForCategory a1 a2 labels = some res) := by
  constructor
  · exact fun a1 a2 labels h => calculateKappaForCategory_none_of_bad a1 a2 labels h
  · intro a1 a2 labels hin1
    have hn1 : ∀ i, i < a1.length → 0 ≤ idxAt labels a1 i :=
      fun i hi => idxAt_nonneg_of_inset hin1 hi
    obtain ⟨M, obs, hM, -⟩ := kappaLoop_spec labels a1 a2 a1.length hn1
    simp only [calculateKappaForCategory, hM]
    exact ⟨_, rfl⟩

/-- **C10 amended witness**: a `bogus` annotator1 label on the first item
makes the computation throw. -/
theorem out_of_set_label_behavior_witness :
    calculateKappaForCategory ["bogus"] ["positive"] sentimentLabels = none :=
  out_of_set_label_behavior.1 ["bogus"] ["positive"] sentimentLabels
    ⟨0, by decide, by decide⟩

/-- **C8**: with zero complete pairs, `calculateKappa` refuses to compute:
it produces no result for either dimension (the user only sees the alert)
and the previously displayed result state is left unchanged. -/
theorem calculateKappa_refuses_zero_pairs (annotations : List Annotation)
    (prev : Option KappaResult)
    (h : (completePairs annotations).length = 0) :
    calculateKappa annotations = none ∧
    kappaResultsAfterCalculate prev annotations = prev := by
  have hck : calculateKappa annotations = none := by
    simp only [calculateKappa]
    rw [if_pos h]
  exact ⟨hck, by simp only [kappaResultsAfterCalculate, hck]⟩

/-- **C8 witness**: a single annotator1 judgment yields zero complete
pairs; the computation is refused and an existing displayed result
survives unchanged. -/
theorem calculateKappa_refuses_zero_pairs_witness :
    calculateKappa [⟨1, 7, Role.annotator1, Sentiment.positive,
      Discourse.partisan, ""⟩] = none ∧
    kappaResultsAfterCalculate
      (some ⟨⟨1, 1, 1, []⟩, ⟨1, 1, 1, []⟩⟩)
      [⟨1, 7, Role.annotator1, Sentiment.positive, Discourse.partisan, ""⟩] =
      some ⟨⟨1, 1, 1, []⟩, ⟨1, 1, 1, []⟩⟩ :=
  calculateKappa_refuses_zero_pairs _ _
    (by simp [completePairs, commentIds, lastWith])

/-- **C6**: with exactly two judgments, `hasDisagreement` is `true`
exactly when the two judgments differ on sentiment or differ on
discourse polarization (exact label equality); with fewer than two it is
`false`. -/
theorem hasDisagreement_spec :
    (∀ a b : Annotation, hasDisagreement [a, b] = true ↔
      (a.sentiment ≠ b.sentiment ∨
        a.discourse_polarization ≠ b.discourse_polarization)) ∧
    (∀ l : List Annotation, l.length < 2 → hasDisagreement l = false) := by
  constructor
  · intro a b
    simp [hasDisagreement]
  · intro l hl
    rw [hasDisagreement, if_pos hl]

/-- **C6 witness**: equal sentiment but different discourse labels is a
disagreement; a single judgment is not. -/
theorem hasDisagreement_spec_witness :
    hasDisagreement
      [⟨1, 7, Role.annotator1, Sentiment.positive, Discourse.partisan, ""⟩,
       ⟨2, 7, Role.annotator2, Sentiment.positive, Discourse.objective, ""⟩] =
      true ∧
    hasDisagreement
      [⟨1, 7, Role.annotator1, Sentiment.positive, Discourse.partisan, ""⟩] =
      false :=
  ⟨(hasDisagreement_spec.1 _ _).mpr (Or.inr (by decide)),
    hasDisagreement_spec.2 _ (by decide)⟩

theorem lastWith_mem {anns : List Annotation} {cid : Nat} {r : Role}
    {a : Annotation} (h : lastWith anns cid r = some a) :
    a ∈ anns ∧ a.comment_id = cid ∧ a.annotator_role = r := by
  rw [lastWith] at h
  have hmem := List.mem_of_getLast?_eq_some h
  rw [List.mem_filter] at hmem
  obtain ⟨hmem, hpred⟩ := hmem
  simp only [Bool.and_eq_true, beq_iff_eq] at hpred
  exact ⟨hmem, hpred.1, hpred.2⟩

theorem lastWith_isSome_iff {anns : List Annotation} {cid : Nat} {r : Role} :
    (lastWith anns cid r).isSome ↔
      anns.filter (fun a => a.comment_id == cid && a.annotator_role == r) ≠ [] := by
  rw [lastWith]
  exact List.getLast?_isSome

theorem mem_commentIds {anns : List Annotation} {cid : Nat} :
    cid ∈ commentIds anns ↔ ∃ a ∈ anns, a.comment_id = cid := by
  simp [commentIds]

theorem mem_completePairs {anns : List Annotation} {p : Annotation × Annotation} :
    p ∈ completePairs anns ↔
      ∃ cid, cid ∈ commentIds anns ∧
        lastWith anns cid Role.annotator1 = some p.1 ∧
        lastWith anns cid Role.annotator2 = some p.2 := by
  rw [completePairs, List.mem_filterMap]
  constructor
  · rintro ⟨cid, hcid, hf⟩
    refine ⟨cid, hcid, ?_⟩
    cases h1 : lastWith anns cid Role.annotator1 with
    | none => rw [h1] at hf; simp at hf
    | some a1 =>
      cases h2 : lastWith anns cid Role.annotator2 with
      | none => rw [h1, h2] at hf; simp at hf
      | some a2 =>
        rw [h1, h2] at hf
        simp only [Option.some.injEq] at hf
        subst hf
        exact ⟨rfl, rfl⟩
  · rintro ⟨cid, hcid, h1, h2⟩
    refine ⟨cid, hcid, ?_⟩
    rw [h1, h2]

/-- **C5**: under the at-most-one-Judgment-per-(item, annotator)
invariant, the pair extraction of `calculateKappa` includes an item if
and only if that item has exactly one judgment from each of the two
annotator roles, and every extracted pair holds two judgments of the
same item, in role order. -/
theorem pair_extraction_spec (anns : List Annotation)
    (hinv : ∀ (cid : Nat) (r : Role),
      (anns.filter (fun a => a.comment_id == cid &&
        a.annotator_role == r)).length ≤ 1) :
    (∀ cid : Nat,
      (∃ p ∈ completePairs anns, p.1.comment_id = cid) ↔
        ((anns.filter (fun a => a.comment_id == cid &&
            a.annotator_role == Role.annotator1)).length = 1 ∧
          (anns.filter (fun a => a.comment_id == cid &&
            a.annotator_role == Role.annotator2)).length = 1)) ∧
    (∀ (i : Nat) (p : Annotation × Annotation),
      (completePairs anns).get? i = some p →
        p.1.comment_id = p.2.comment_id ∧
        p.1.annotator_role = Role.annotator1 ∧
        p.2.annotator_role = Role.annotator2) := by
  have hpair : ∀ p ∈ completePairs anns,
      p.1.comment_id = p.2.comment_id ∧ p.1.annotator_role = Role.annotator1 ∧
        p.2.annotator_role = Role.annotator2 := by
    intro p hp
    obtain ⟨cid, -, h1, h2⟩ := mem_completePairs.mp hp
    obtain ⟨-, hc1, hr1⟩ := lastWith_mem h1
    obtain ⟨-, hc2, hr2⟩ := lastWith_mem h2
    exact ⟨by rw [hc1, hc2], hr1, hr2⟩
  refine ⟨?_, ?_⟩
  · intro cid
    constructor
    · rintro ⟨p, hp, hcid⟩
      obtain ⟨cid', -, h1, h2⟩ := mem_completePairs.mp hp
      obtain ⟨-, hc1, -⟩ := lastWith_mem h1
      have hcc : cid' = cid := by rw [← hc1, hcid]
      subst hcc
      have hne1 : anns.filter (fun a => a.comment_id == cid' &&
          a.annotator_role == Role.annotator1) ≠ [] :=
        lastWith_isSome_iff.mp (by rw [h1]; rfl)
      have hne2 : anns.filter (fun a => a.comment_id == cid' &&
          a.annotator_role == Role.annotator2) ≠ [] :=
        lastWith_isSome_iff.mp (by rw [h2]; rfl)
      have hge1 := List.length_pos.mpr hne1
      have hge2 := List.length_pos.mpr hne2
      have hle1 := hinv cid' Role.annotator1
      have hle2 := hinv cid' Role.annotator2
      omega
    · rintro ⟨h1len, h2len⟩
      have hne1 : anns.filter (fun a => a.comment_id == cid &&
          a.annotator_role == Role.annotator1) ≠ [] := by
        intro hc
        rw [hc] at h1len
        simp at h1len
      have hne2 : anns.filter (fun a => a.comment_id == cid &&
          a.annotator_role == Role.annotator2) ≠ [] := by
        intro hc
        rw [hc] at h2len
        simp at h2len
      obtain ⟨a1, ha1⟩ := Option.isSome_iff_exists.mp (lastWith_isSome_iff.mpr hne1)
      obtain ⟨a2, ha2⟩ := Option.isSome_iff_exists.mp (lastWith_isSome_iff.mpr hne2)
      have hcidmem : cid ∈ commentIds anns := by
        rw [mem_commentIds]
        obtain ⟨ha1m, hc1, -⟩ := lastWith_mem ha1
        exact ⟨a1, ha1m, hc1⟩
      exact ⟨(a1, a2), mem_completePairs.mpr ⟨cid, hcidmem, ha1, ha2⟩,
        (lastWith_mem ha1).2.1⟩
  · intro i p hp
    have hmem : p ∈ completePairs anns := by
      rw [List.get?_eq_getElem?] at hp
      exact List.getElem?_mem hp
    exact hpair p hmem

/-- **C5 witness**: two judgments on item `5`, one per role, are
extracted as one pair whose two components both belong to item `5`. -/
theorem pair_extraction_spec_witness :
    ((⟨1, 5, Role.annotator1, Sentiment.positive, Discourse.partisan, ""⟩ : Annotation),
      (⟨2, 5, Role.annotator2, Sentiment.negative, Discourse.partisan, ""⟩ :
        Annotation)).1.comment_id =
      ((⟨1, 5, Role.annotator1, Sentiment.positive, Discourse.partisan, ""⟩ : Annotation),
        (⟨2, 5, Role.annotator2, Sentiment.negative, Discourse.partisan, ""⟩ :
          Annotation)).2.comment_id ∧
    ((⟨1, 5, Role.annotator1, Sentiment.positive, Discourse.partisan, ""⟩ : Annotation),
      (⟨2, 5, Role.annotator2, Sentiment.negative, Discourse.partisan, ""⟩ :
        Annotation)).1.annotator_role = Role.annotator1 ∧
    ((⟨1, 5, Role.annotator1, Sentiment.positive, Discourse.partisan, ""⟩ : Annotation),
      (⟨2, 5, Role.annotator2, Sentiment.negative, Discourse.partisan, ""⟩ :
        Annotation)).2.annotator_role = Role.annotator2 :=
  (pair_extraction_spec
    [⟨1, 5, Role.annotator1, Sentiment.positive, Discourse.partisan, ""⟩,
     ⟨2, 5, Role.annotator2, Sentiment.negative, Discourse.partisan, ""⟩]
    (by
      intro cid r
      by_cases h : cid = 5
      · subst h
        cases r <;> decide
      · have h5 : ((5 : Nat) == cid) = false :=
          beq_eq_false_iff_ne.mpr (fun hcon => h hcon.symm)
        simp [List.filter, h5])).2 0 _
    (by simp [completePairs, commentIds, lastWith])

theorem findIdx?_eq_some_of_least {α : Type*} (l : List α) (p : α → Bool)
    (d : α) (i : Nat) (hi : i < l.length) (hp : p (l.getD i d) = true)
    (hmin : ∀ j, j < i → p (l.getD j d) = false) :
    l.findIdx? p = some i := by
  rw [List.findIdx?_eq_some_iff_getElem]
  refine ⟨hi, ?_, ?_⟩
  · rw [← getD_eq_getElem_of_lt hi]
    exact hp
  · intro j hj
    rw [← getD_eq_getElem_of_lt (Nat.lt_trans hj hi), hmin j hj]
    exact Bool.false_ne_true

theorem findIdx?_eq_none_of_all {α : Type*} (l : List α) (p : α → Bool)
    (d : α) (h : ∀ j, j < l.length → p (l.getD j d) = false) :
    l.findIdx? p = none := by
  rw [List.findIdx?_eq_none_iff]
  intro x hx
  obtain ⟨j, hj, rfl⟩ := List.mem_iff_getElem.mp hx
  rw [← getD_eq_getElem_of_lt hj]
  exact h j hj

theorem isDisagreementTarget_imp_unfinished
    {annMap : List (Nat × List Annotation)}
    {finMap : List (Nat × FinalAnnotation)} {c? : Option Comment}
    (h : isDisagreementTarget annMap finMap c? = true) :
    isUnfinishedTarget annMap finMap c? = true := by
  cases c? with
  | none => simp [isDisagreementTarget] at h
  | some c =>
    simp only [isDisagreementTarget, Bool.and_eq_true] at h
    simp only [isUnfinishedTarget, Bool.and_eq_true]
    exact h.1

/-- **C7**: the adjudicator's navigation selects the lowest index holding
a loaded comment with exactly 2 judgments, no final decision and a
disagreement; failing that, the lowest index with exactly 2 judgments
and no final decision; failing that, it stays on the current index. -/
theorem adjudicator_navigation_policy (totalComments : Nat)
    (comments : List (Option Comment)) (annMap : List (Nat × List Annotation))
    (finMap : List (Nat × FinalAnnotation)) (cur : Nat)
    (htc : 0 < totalComments) (hk : annMap ≠ []) :
    (∀ i, i < comments.length →
      isDisagreementTarget annMap finMap (comments.getD i none) = true →
      (∀ j, j < i →
        isDisagreementTarget annMap finMap (comments.getD j none) = false) →
      navigateToFirstDisagreement totalComments comments annMap finMap cur = i) ∧
    ((∀ j, j < comments.length →
        isDisagreementTarget annMap finMap (comments.getD j none) = false) →
      ∀ i, i < comments.length →
        isUnfinishedTarget annMap finMap (comments.getD i none) = true →
        (∀ j, j < i →
          isUnfinishedTarget annMap finMap (comments.getD j none) = false) →
        navigateToFirstDisagreement totalComments comments annMap finMap cur = i) ∧
    ((∀ j, j < comments.length →
        isUnfinishedTarget annMap finMap (comments.getD j none) = false) →
      navigateToFirstDisagreement totalComments comments annMap finMap cur = cur) := by
  refine ⟨?_, ?_, ?_⟩
  · intro i hi hp hmin
    rw [navigateToFirstDisagreement, if_pos ⟨htc, hk⟩,
      findIdx?_eq_some_of_least comments _ none i hi hp hmin]
  · intro hnoD i hi hp hmin
    rw [navigateToFirstDisagreement, if_pos ⟨htc, hk⟩,
      findIdx?_eq_none_of_all comments _ none hnoD,
      findIdx?_eq_some_of_least comments _ none i hi hp hmin]
  · intro hnoU
    have hnoD : ∀ j, j < comments.length →
        isDisagreementTarget annMap finMap (comments.getD j none) = false := by
      intro j hj
      cases hD : isDisagreementTarget annMap finMap (comments.getD j none) with
      | false => rfl
      | true =>
        have hu := isDisagreementTarget_imp_unfinished hD
        rw [hnoU j hj] at hu
        exact absurd hu Bool.false_ne_true
    rw [navigateToFirstDisagreement, if_pos ⟨htc, hk⟩,
      findIdx?_eq_none_of_all comments _ none hnoD,
      findIdx?_eq_none_of_all comments _ none hnoU]

/-- **C7 witness**: with item 1 in `COMPLETE_AGREE` and items 2 and 3 in
`COMPLETE_DISAGREE` (no final decisions), the navigation selects index 1,
i.e. item 2. -/
theorem adjudicator_navigation_policy_witness :
    navigateToFirstDisagreement 3
      [some ⟨1, "a"⟩, some ⟨2, "b"⟩, some ⟨3, "c"⟩]
      [(1, [⟨1, 1, Role.annotator1, Sentiment.positive, Discourse.partisan, ""⟩,
            ⟨2, 1, Role.annotator2, Sentiment.positive, Discourse.partisan, ""⟩]),
       (2, [⟨3, 2, Role.annotator1, Sentiment.positive, Discourse.partisan, ""⟩,
            ⟨4, 2, Role.annotator2, Sentiment.negative, Discourse.partisan, ""⟩]),
       (3, [⟨5, 3, Role.annotator1, Sentiment.positive, Discourse.partisan, ""⟩,
            ⟨6, 3, Role.annotator2, Sentiment.negative, Discourse.partisan, ""⟩])]
      [] 0 = 1 :=
  (adjudicator_navigation_policy 3
    [some ⟨1, "a"⟩, some ⟨2, "b"⟩, some ⟨3, "c"⟩]
    [(1, [⟨1, 1, Role.annotator1, Sentiment.positive, Discourse.partisan, ""⟩,
          ⟨2, 1, Role.annotator2, Sentiment.positive, Discourse.partisan, ""⟩]),
     (2, [⟨3, 2, Role.annotator1, Sentiment.positive, Discourse.partisan, ""⟩,
          ⟨4, 2, Role.annotator2, Sentiment.negative, Discourse.partisan, ""⟩]),
     (3, [⟨5, 3, Role.annotator1, Sentiment.positive, Discourse.partisan, ""⟩,
          ⟨6, 3, Role.annotator2, Sentiment.negative, Discourse.partisan, ""⟩])]
    [] 0 (by decide) (by decide)).1 1 (by decide) (by decide) (by decide)

end AnnotateVite
